import Mathlib

/-!
Verification of the graph upload/download orchestration engine of
`lfview-api-client` (`src/lfview/client/utils.py`, `src/lfview/client/session.py`,
`src/lfview/client/constants.py`) via a shallow embedding in Lean 4.

Modelling conventions:
* A resource object graph is represented by a `Store`: an association list from
  object identity (a `Nat`, standing for Python `id(obj)`) to the resource's
  property dictionary.  Pointer-valued fields hold a `Ptr`, which is either a
  bare URL string or a reference (by identity) to another resource in the store.
  Sharing (a DAG) is expressed by two parents holding the same identity.
* Python attribute state mutated by the schedulers (`_url`, `_links`,
  `_touched`, `_future_links`, ...) lives in a separate `SchedState`, keyed by
  object identity, exactly because in Python it is mutable object state.
* Recursion over the (acyclic) object graph is fuel-indexed; every theorem is
  stated for arbitrary fuel, or with the acyclicity hypothesis the Python code
  itself assumes.
-/

/-- Constant `CHUNK_SIZE` from `constants.py`: `80 * 256 * 1024`. -/
def CHUNK_SIZE : Nat := 80 * 256 * 1024

/-- Constant `IGNORED_PROPS` from `constants.py`. -/
def IGNORED_PROPS : List String := ["uid", "author"]

/-- Value held by a pointer-typed property: either an unresolved URL string or
a materialized resource, identified by its Python object identity. -/
inductive Ptr where
  | url (s : String)
  | res (id : Nat)
  deriving DecidableEq, Repr

/-- Value of one property of a resource, as the graph walker distinguishes
them: unset (`None`), an opaque scalar, a pointer, or a list of pointers.
The constructor choice records the declared kind of the property
(`is_pointer` / `is_list_of_pointers` / other) together with its value. -/
inductive FVal where
  | fnone
  | scalar (v : Nat)
  | ptr (p : Ptr)
  | ptrList (ps : List Ptr)
  deriving DecidableEq, Repr

/-- A resource's property dictionary (`resource._props` paired with the
current value `getattr(resource, name)` of each property). -/
abbrev Props := List (String × FVal)

/-- An object graph: object identity to property dictionary.  The first
binding of an identity wins, as in a Python dict. -/
abbrev Store := List (Nat × Props)

/-- Look up the property dictionary of a resource; an identity not present in
the store has no properties. -/
def storeProps (store : Store) (id : Nat) : Props :=
  match store.lookup id with
  | some ps => ps
  | none => []

/-- Lexicographic comparison of character lists by code point, matching
Python's string ordering. -/
def charListLt : List Char → List Char → Bool
  | [], [] => false
  | [], _ :: _ => true
  | _ :: _, [] => false
  | c :: cs, d :: ds =>
    if c.toNat < d.toNat then true
    else if d.toNat < c.toNat then false
    else charListLt cs ds

/-- String comparison by code point, matching Python's `<` on `str`. -/
def strLt (a b : String) : Bool := charListLt a.data b.data

/-- Stable insertion into a list sorted by a `String` key, keeping an earlier
element before a later one with an equal key (Python's `sorted` is stable). -/
def insortBy (key : α → String) (x : α) : List α → List α
  | [] => [x]
  | y :: ys => if strLt (key y) (key x) then y :: insortBy key x ys else x :: y :: ys

/-- Stable sort by a `String` key, mirroring Python `sorted`. -/
def sortByKey (key : α → String) : List α → List α
  | [] => []
  | x :: xs => insortBy key x (sortByKey key xs)

/-- Order-preserving deduplication keeping the first occurrence of each
element and a set of already-seen elements, mirroring
`list(OrderedDict.fromkeys(children))`. -/
def dedupFirstFrom [DecidableEq α] (seen : List α) : List α → List α
  | [] => []
  | x :: xs =>
    if x ∈ seen then dedupFirstFrom seen xs
    else x :: dedupFirstFrom (x :: seen) xs

/-- Order-preserving deduplication keeping the first occurrence of each
element, mirroring `list(OrderedDict.fromkeys(children))`. -/
def dedupFirst [DecidableEq α] (l : List α) : List α := dedupFirstFrom [] l

theorem dedupFirstFrom_congr [DecidableEq α] :
    ∀ (xs seen seen' : List α), (∀ a, a ∈ seen ↔ a ∈ seen') →
      dedupFirstFrom seen xs = dedupFirstFrom seen' xs
  | [], _, _, _ => rfl
  | x :: xs, seen, seen', h => by
    by_cases hx : x ∈ seen
    · rw [dedupFirstFrom, dedupFirstFrom, if_pos hx, if_pos ((h x).mp hx)]
      exact dedupFirstFrom_congr xs seen seen' h
    · rw [dedupFirstFrom, dedupFirstFrom, if_neg hx,
        if_neg (fun hc => hx ((h x).mpr hc))]
      refine congrArg (x :: ·) (dedupFirstFrom_congr xs _ _ ?_)
      intro a
      simp [h a]

theorem dedupFirstFrom_cons_seen [DecidableEq α] :
    ∀ (xs : List α) (seen : List α) (x : α),
      dedupFirstFrom (x :: seen) xs = dedupFirstFrom seen (xs.filter (· ≠ x))
  | [], _, _ => rfl
  | y :: ys, seen, x => by
    by_cases hyx : y = x
    · subst hyx
      rw [dedupFirstFrom, if_pos (List.mem_cons_self y seen),
        List.filter_cons_of_neg (by simp)]
      exact dedupFirstFrom_cons_seen ys seen y
    · rw [List.filter_cons_of_pos (by simp [hyx])]
      by_cases hy : y ∈ seen
      · rw [dedupFirstFrom, if_pos (List.mem_cons_of_mem x hy),
          dedupFirstFrom, if_pos hy]
        exact dedupFirstFrom_cons_seen ys seen x
      · rw [dedupFirstFrom, if_neg (by simp [hyx, hy]), dedupFirstFrom,
          if_neg hy]
        refine congrArg (y :: ·) ?_
        rw [dedupFirstFrom_congr ys (y :: x :: seen) (x :: y :: seen)
          (by intro a; constructor <;> (intro h; simp at h ⊢; tauto)),
          dedupFirstFrom_cons_seen ys (y :: seen) x]

theorem dedupFirst_nil [DecidableEq α] : dedupFirst ([] : List α) = [] := rfl

theorem dedupFirst_cons [DecidableEq α] (x : α) (xs : List α) :
    dedupFirst (x :: xs) = x :: dedupFirst (xs.filter (· ≠ x)) := by
  rw [dedupFirst, dedupFirstFrom, if_neg (List.not_mem_nil x),
    dedupFirstFrom_cons_seen, dedupFirst]

theorem filter_idem (p : α → Bool) (l : List α) :
    (l.filter p).filter p = l.filter p := by
  rw [List.filter_filter]
  apply List.filter_congr
  intro a _
  exact Bool.and_self _

theorem filter_comm (p q : α → Bool) (l : List α) :
    (l.filter q).filter p = (l.filter p).filter q := by
  rw [List.filter_filter, List.filter_filter]
  apply List.filter_congr
  intro a _
  exact Bool.and_comm _ _

theorem mem_dedupFirst_aux [DecidableEq α] :
    ∀ (n : Nat) (l : List α), l.length ≤ n → ∀ a, (a ∈ dedupFirst l ↔ a ∈ l)
  | 0, l, hl => by
    intro a
    have : l = [] := List.eq_nil_of_length_eq_zero (Nat.le_zero.mp hl)
    subst this
    simp [dedupFirst_nil]
  | n + 1, [], _ => by
    intro a
    simp [dedupFirst_nil]
  | n + 1, x :: xs, hl => by
    intro a
    rw [dedupFirst_cons]
    have hlen : (xs.filter (· ≠ x)).length ≤ n := by
      have h1 := List.length_filter_le (· ≠ x) xs
      have h2 : xs.length ≤ n := Nat.le_of_succ_le_succ hl
      omega
    by_cases hax : a = x
    · subst hax
      simp
    · simp only [List.mem_cons, hax, false_or]
      rw [mem_dedupFirst_aux n _ hlen a]
      simp [List.mem_filter, hax]

theorem mem_dedupFirst [DecidableEq α] (a : α) (l : List α) :
    a ∈ dedupFirst l ↔ a ∈ l :=
  mem_dedupFirst_aux l.length l (Nat.le_refl _) a

theorem nodup_dedupFirst_aux [DecidableEq α] :
    ∀ (n : Nat) (l : List α), l.length ≤ n → (dedupFirst l).Nodup
  | 0, l, hl => by
    have : l = [] := List.eq_nil_of_length_eq_zero (Nat.le_zero.mp hl)
    subst this
    simp [dedupFirst_nil]
  | n + 1, [], _ => by simp [dedupFirst_nil]
  | n + 1, x :: xs, hl => by
    rw [dedupFirst_cons]
    have hlen : (xs.filter (· ≠ x)).length ≤ n := by
      have h1 := List.length_filter_le (· ≠ x) xs
      have h2 : xs.length ≤ n := Nat.le_of_succ_le_succ hl
      omega
    refine List.nodup_cons.mpr ⟨?_, nodup_dedupFirst_aux n _ hlen⟩
    intro hmem
    rw [mem_dedupFirst_aux n _ hlen x] at hmem
    have := (List.mem_filter.mp hmem).2
    simp at this

theorem nodup_dedupFirst [DecidableEq α] (l : List α) : (dedupFirst l).Nodup :=
  nodup_dedupFirst_aux l.length l (Nat.le_refl _)

theorem filter_dedupFirst_aux [DecidableEq α] :
    ∀ (n : Nat) (l : List α), l.length ≤ n → ∀ (p : α → Bool),
      (dedupFirst l).filter p = dedupFirst (l.filter p)
  | 0, l, hl => by
    intro p
    have : l = [] := List.eq_nil_of_length_eq_zero (Nat.le_zero.mp hl)
    subst this
    simp [dedupFirst_nil]
  | n + 1, [], _ => by intro p; simp [dedupFirst_nil]
  | n + 1, x :: xs, hl => by
    intro p
    rw [dedupFirst_cons]
    have hlen : (xs.filter (· ≠ x)).length ≤ n := by
      have h1 := List.length_filter_le (· ≠ x) xs
      have h2 : xs.length ≤ n := Nat.le_of_succ_le_succ hl
      omega
    by_cases hp : p x
    · rw [List.filter_cons_of_pos hp, filter_dedupFirst_aux n _ hlen p,
        List.filter_cons_of_pos hp, dedupFirst_cons, filter_comm]
    · rw [List.filter_cons_of_neg (by simp [hp]),
        filter_dedupFirst_aux n _ hlen p, filter_comm,
        List.filter_cons_of_neg (by simp [hp])]
      congr 1
      apply List.filter_eq_self.mpr
      intro a ha
      have hpa := (List.mem_filter.mp ha).2
      simp only [decide_eq_true_eq]
      intro hax
      subst hax
      simp [hp] at hpa

theorem filter_dedupFirst [DecidableEq α] (p : α → Bool) (l : List α) :
    (dedupFirst l).filter p = dedupFirst (l.filter p) :=
  filter_dedupFirst_aux l.length l (Nat.le_refl _) p

theorem dedupFirst_dedupFirst_append_aux [DecidableEq α] :
    ∀ (n : Nat) (bs : List α), bs.length ≤ n → ∀ (cs : List α),
      dedupFirst (dedupFirst bs ++ cs) = dedupFirst (bs ++ cs)
  | 0, bs, hb => by
    intro cs
    have : bs = [] := List.eq_nil_of_length_eq_zero (Nat.le_zero.mp hb)
    subst this
    simp [dedupFirst_nil]
  | n + 1, [], _ => by intro cs; simp [dedupFirst_nil]
  | n + 1, b :: bs, hb => by
    intro cs
    have hlen : (bs.filter (· ≠ b)).length ≤ n := by
      have h1 := List.length_filter_le (· ≠ b) bs
      have h2 : bs.length ≤ n := Nat.le_of_succ_le_succ hb
      omega
    rw [dedupFirst_cons, List.cons_append, dedupFirst_cons, List.filter_append,
      filter_dedupFirst, filter_idem, dedupFirst_dedupFirst_append_aux n _ hlen,
      ← List.filter_append, List.cons_append, dedupFirst_cons]

theorem dedupFirst_dedupFirst_append [DecidableEq α] (bs cs : List α) :
    dedupFirst (dedupFirst bs ++ cs) = dedupFirst (bs ++ cs) :=
  dedupFirst_dedupFirst_append_aux bs.length bs (Nat.le_refl _) cs

theorem dedupFirst_append_congr_right_aux [DecidableEq α] :
    ∀ (n : Nat) (bs : List α), bs.length ≤ n → ∀ (cs cs' : List α),
      dedupFirst cs = dedupFirst cs' →
      dedupFirst (bs ++ cs) = dedupFirst (bs ++ cs')
  | 0, bs, hb => by
    intro cs cs' h
    have : bs = [] := List.eq_nil_of_length_eq_zero (Nat.le_zero.mp hb)
    subst this
    simpa using h
  | n + 1, [], _ => by intro cs cs' h; simpa using h
  | n + 1, b :: bs, hb => by
    intro cs cs' h
    have hlen : (bs.filter (· ≠ b)).length ≤ n := by
      have h1 := List.length_filter_le (· ≠ b) bs
      have h2 : bs.length ≤ n := Nat.le_of_succ_le_succ hb
      omega
    have hils : dedupFirst (cs.filter (· ≠ b)) = dedupFirst (cs'.filter (· ≠ b)) := by
      rw [← filter_dedupFirst, ← filter_dedupFirst, h]
    rw [List.cons_append, dedupFirst_cons, List.filter_append,
      dedupFirst_append_congr_right_aux n _ hlen _ _ hils, ← List.filter_append,
      List.cons_append, dedupFirst_cons]

theorem dedupFirst_append_congr_right [DecidableEq α] (bs : List α)
    {cs cs' : List α} (h : dedupFirst cs = dedupFirst cs') :
    dedupFirst (bs ++ cs) = dedupFirst (bs ++ cs') :=
  dedupFirst_append_congr_right_aux bs.length bs (Nat.le_refl _) cs cs' h

theorem dedupFirst_append_congr_left [DecidableEq α] {bs bs' : List α}
    (cs : List α) (h : dedupFirst bs = dedupFirst bs') :
    dedupFirst (bs ++ cs) = dedupFirst (bs' ++ cs) := by
  rw [← dedupFirst_dedupFirst_append bs cs, h, dedupFirst_dedupFirst_append]

theorem dedupFirst_append_congr [DecidableEq α] {bs bs' cs cs' : List α}
    (h1 : dedupFirst bs = dedupFirst bs') (h2 : dedupFirst cs = dedupFirst cs') :
    dedupFirst (bs ++ cs) = dedupFirst (bs' ++ cs') := by
  rw [dedupFirst_append_congr_left cs h1, dedupFirst_append_congr_right bs' h2]

/-- Expansion of one pointer value, parameterized by the recursive call used on
materialized resources: a URL string is kept unexpanded; a materialized
resource contributes its own children first, then itself (`utils.py` lines
156-164). -/
def expandWith (rec : Nat → List Ptr) (p : Ptr) : List Ptr :=
  match p with
  | .url s => [.url s]
  | .res i => rec i ++ [.res i]

/-- Children contributed by one property, parameterized by the recursive call:
ignored names and `None` values are skipped, a pointer property is expanded,
a list-of-pointers property expands each entry in order, and any other
property contributes nothing (`utils.py` lines 152-164). -/
def fieldChildrenWith (rec : Nat → List Ptr) (f : String × FVal) : List Ptr :=
  if f.1 ∈ IGNORED_PROPS then []
  else
    match f.2 with
    | .fnone => []
    | .scalar _ => []
    | .ptr p => expandWith rec p
    | .ptrList ps => ps.flatMap (expandWith rec)

/-- `compute_children` from `utils.py` (lines 145-166): walk the sorted
properties of the resource, recursively expanding materialized pointers, and
deduplicate the result keeping first occurrences.  Recursion is fuel-indexed;
the Python original terminates exactly on acyclic graphs. -/
def compute_children (store : Store) : Nat → Nat → List Ptr
  | 0, _ => []
  | fuel + 1, rid =>
    dedupFirst ((sortByKey Prod.fst (storeProps store rid)).flatMap
      (fieldChildrenWith (fun i => compute_children store fuel i)))

/-- Specification-side traversal, following the words of the spec: visit
pointer fields in sorted field-name order, for a materialized child first
recurse into the child's own children and then append the child, and do not
deduplicate.  `compute_children` should be its first-occurrence dedup. -/
def preorder_descendants (store : Store) : Nat → Nat → List Ptr
  | 0, _ => []
  | fuel + 1, rid =>
    (sortByKey Prod.fst (storeProps store rid)).flatMap
      (fieldChildrenWith (fun i => preorder_descendants store fuel i))

/-- Direct (one-step) pointer values of a resource: the walker pieces with the
recursive call replaced by the empty list. -/
def directPtrs (store : Store) (rid : Nat) : List Ptr :=
  (sortByKey Prod.fst (storeProps store rid)).flatMap
    (fieldChildrenWith (fun _ => []))

/-- Edges of the resource graph: a pair `(i, j)` for every materialized
resource `j` held in a non-ignored pointer or list-of-pointers property of a
resource `i` bound in the store. -/
def edgeList (store : Store) : List (Nat × Nat) :=
  store.flatMap (fun e =>
    (directPtrs store e.1).filterMap (fun p =>
      match p with
      | .res j => some (e.1, j)
      | .url _ => none))

theorem dedupFirst_flatMap_congr [DecidableEq β] {g g' : α → List β}
    (h : ∀ x, dedupFirst (g x) = dedupFirst (g' x)) :
    ∀ l : List α, dedupFirst (l.flatMap g) = dedupFirst (l.flatMap g')
  | [] => rfl
  | x :: xs => by
    rw [List.flatMap_cons, List.flatMap_cons]
    exact dedupFirst_append_congr (h x) (dedupFirst_flatMap_congr h xs)

theorem expandWith_congr {rec rec' : Nat → List Ptr}
    (h : ∀ i, rec i = rec' i) (p : Ptr) :
    expandWith rec p = expandWith rec' p := by
  cases p <;> simp [expandWith, h]

theorem fieldChildrenWith_congr {rec rec' : Nat → List Ptr}
    (h : ∀ i, rec i = rec' i) (f : String × FVal) :
    fieldChildrenWith rec f = fieldChildrenWith rec' f := by
  unfold fieldChildrenWith
  by_cases hig : f.1 ∈ IGNORED_PROPS
  · simp [hig]
  · simp only [hig, if_false]
    cases hv : f.2 with
    | fnone => rfl
    | scalar v => rfl
    | ptr p => exact expandWith_congr h p
    | ptrList ps =>
      apply List.flatMap_congr
      intro p _
      exact expandWith_congr h p

theorem expandWith_dedup (h : Nat → List Ptr) (p : Ptr) :
    dedupFirst (expandWith (fun i => dedupFirst (h i)) p)
      = dedupFirst (expandWith h p) := by
  cases p with
  | url s => rfl
  | res i => exact dedupFirst_dedupFirst_append (h i) [Ptr.res i]

theorem fieldChildrenWith_dedup (h : Nat → List Ptr) (f : String × FVal) :
    dedupFirst (fieldChildrenWith (fun i => dedupFirst (h i)) f)
      = dedupFirst (fieldChildrenWith h f) := by
  unfold fieldChildrenWith
  by_cases hig : f.1 ∈ IGNORED_PROPS
  · simp [hig]
  · simp only [hig, if_false]
    cases f.2 with
    | fnone => rfl
    | scalar v => rfl
    | ptr p => exact expandWith_dedup h p
    | ptrList ps =>
      exact dedupFirst_flatMap_congr (expandWith_dedup h) ps

theorem compute_children_eq_dedup_preorder (store : Store) :
    ∀ (fuel rid : Nat),
      compute_children store fuel rid
        = dedupFirst (preorder_descendants store fuel rid)
  | 0, rid => by simp [compute_children, preorder_descendants, dedupFirst_nil]
  | fuel + 1, rid => by
    rw [compute_children, preorder_descendants]
    have hcc : ∀ i, compute_children store fuel i
        = dedupFirst (preorder_descendants store fuel i) :=
      fun i => compute_children_eq_dedup_preorder store fuel i
    calc
      dedupFirst ((sortByKey Prod.fst (storeProps store rid)).flatMap
          (fieldChildrenWith (fun i => compute_children store fuel i)))
        = dedupFirst ((sortByKey Prod.fst (storeProps store rid)).flatMap
          (fieldChildrenWith
            (fun i => dedupFirst (preorder_descendants store fuel i)))) := by
          rw [List.flatMap_congr (fun f _ => fieldChildrenWith_congr hcc f)]
      _ = dedupFirst ((sortByKey Prod.fst (storeProps store rid)).flatMap
          (fieldChildrenWith (fun i => preorder_descendants store fuel i))) := by
          apply dedupFirst_flatMap_congr
          intro f
          exact fieldChildrenWith_dedup (fun i => preorder_descendants store fuel i) f

/-- Edge relation of the resource graph induced by `edgeList`. -/
def EdgeRel (store : Store) (a b : Nat) : Prop := (a, b) ∈ edgeList store

theorem mem_expandWith {rec : Nat → List Ptr} {p : Ptr} {x : Ptr}
    (h : x ∈ expandWith rec p) :
    (∃ i, x ∈ rec i ∧ Ptr.res i ∈ expandWith (fun _ => []) p)
      ∨ x ∈ expandWith (fun _ => []) p := by
  cases p with
  | url s => exact Or.inr h
  | res i =>
    simp only [expandWith, List.mem_append] at h
    cases h with
    | inl h => exact Or.inl ⟨i, h, by simp [expandWith]⟩
    | inr h => exact Or.inr (by simpa [expandWith] using h)

theorem mem_fieldChildrenWith {rec : Nat → List Ptr} {f : String × FVal}
    {x : Ptr} (h : x ∈ fieldChildrenWith rec f) :
    (∃ i, x ∈ rec i ∧ Ptr.res i ∈ fieldChildrenWith (fun _ => []) f)
      ∨ x ∈ fieldChildrenWith (fun _ => []) f := by
  unfold fieldChildrenWith at *
  by_cases hig : f.1 ∈ IGNORED_PROPS
  · simp [hig] at h
  · simp only [hig, if_false] at h ⊢
    cases hv : f.2 with
    | fnone => rw [hv] at h; exact absurd h (List.not_mem_nil x)
    | scalar v => rw [hv] at h; exact absurd h (List.not_mem_nil x)
    | ptr p => rw [hv] at h; exact mem_expandWith h
    | ptrList ps =>
      rw [hv] at h
      obtain ⟨p, hp, hx⟩ := List.mem_flatMap.mp h
      cases mem_expandWith hx with
      | inl h' =>
        obtain ⟨i, hxi, hdir⟩ := h'
        exact Or.inl ⟨i, hxi, List.mem_flatMap.mpr ⟨p, hp, hdir⟩⟩
      | inr h' => exact Or.inr (List.mem_flatMap.mpr ⟨p, hp, h'⟩)

theorem mem_direct_edge {store : Store} {rid i : Nat}
    (h : Ptr.res i ∈ directPtrs store rid) : EdgeRel store rid i := by
  have hne : storeProps store rid ≠ [] := by
    intro he
    rw [directPtrs, he] at h
    simp [sortByKey] at h
  have hlk : store.lookup rid = some (storeProps store rid) := by
    unfold storeProps at *
    cases hl : store.lookup rid with
    | none => rw [hl] at hne; simp at hne
    | some ps => rfl
  have hmem : (rid, storeProps store rid) ∈ store := by
    generalize hps : storeProps store rid = ps at hlk
    obtain ⟨l₁, l₂, he, -⟩ := List.lookup_eq_some_iff.mp hlk
    rw [he]
    simp
  unfold EdgeRel edgeList
  apply List.mem_flatMap.mpr
  refine ⟨(rid, storeProps store rid), hmem, ?_⟩
  apply List.mem_filterMap.mpr
  exact ⟨Ptr.res i, h, rfl⟩

theorem mem_preorder_reaches (store : Store) :
    ∀ (fuel rid : Nat) (j : Nat),
      Ptr.res j ∈ preorder_descendants store fuel rid →
      Relation.TransGen (EdgeRel store) rid j
  | 0, rid, j => by
    intro h
    simp [preorder_descendants] at h
  | fuel + 1, rid, j => by
    intro h
    rw [preorder_descendants] at h
    obtain ⟨f, hf, hx⟩ := List.mem_flatMap.mp h
    have hdir : ∀ {y : Ptr}, y ∈ fieldChildrenWith (fun _ => []) f →
        y ∈ directPtrs store rid := by
      intro y hy
      exact List.mem_flatMap.mpr ⟨f, hf, hy⟩
    cases mem_fieldChildrenWith hx with
    | inl h' =>
      obtain ⟨i, hji, hdi⟩ := h'
      exact Relation.TransGen.head (mem_direct_edge (hdir hdi))
        (mem_preorder_reaches store fuel i j hji)
    | inr h' => exact Relation.TransGen.single (mem_direct_edge (hdir h'))

theorem transGen_rank {store : Store} {rk : Nat → Nat}
    (hrk : ∀ e ∈ edgeList store, rk e.2 < rk e.1) {a b : Nat}
    (h : Relation.TransGen (EdgeRel store) a b) : rk b < rk a := by
  induction h with
  | single h1 => exact hrk _ h1
  | tail _ h2 ih => exact Nat.lt_trans (hrk _ h2) ih

/-- C4: for every acyclic resource graph, `compute_children` returns the list
of all descendants of the root (not the root itself) reachable via pointer and
list-of-pointer fields — the first-occurrence deduplication of the depth-first
traversal that visits fields in sorted field-name order and recurses into a
materialized child's own children before appending the child; the result has
no duplicates (a child shared by two parents appears exactly once, with count
one), its members are exactly the traversal's members, and the root itself
never appears.  Acyclicity is given by a rank function decreasing along every
edge of the graph. -/
theorem claim_C4_compute_children (store : Store) (fuel rid : Nat)
    (rk : Nat → Nat) (hacyc : ∀ e ∈ edgeList store, rk e.2 < rk e.1) :
    compute_children store fuel rid
        = dedupFirst (preorder_descendants store fuel rid)
      ∧ (compute_children store fuel rid).Nodup
      ∧ (∀ p, p ∈ compute_children store fuel rid
          ↔ p ∈ preorder_descendants store fuel rid)
      ∧ (∀ p ∈ compute_children store fuel rid,
          (compute_children store fuel rid).count p = 1)
      ∧ Ptr.res rid ∉ compute_children store fuel rid := by
  have heq := compute_children_eq_dedup_preorder store fuel rid
  have hnd : (compute_children store fuel rid).Nodup := by
    rw [heq]; exact nodup_dedupFirst _
  refine ⟨heq, hnd, ?_, ?_, ?_⟩
  · intro p
    rw [heq]
    exact mem_dedupFirst p _
  · intro p hp
    exact List.count_eq_one_of_mem hnd hp
  · intro hmem
    rw [heq, mem_dedupFirst] at hmem
    exact absurd (transGen_rank hacyc (mem_preorder_reaches store fuel rid rid hmem))
      (Nat.lt_irrefl _)

/-- Diamond-shaped witness graph: resource 0 points at resources 1 and 2, and
both point at the shared resource 3. -/
def witnessStore : Store :=
  [ (0, [("a", .ptr (.res 1)), ("b", .ptr (.res 2))]),
    (1, [("x", .ptr (.res 3))]),
    (2, [("x", .ptr (.res 3))]),
    (3, [("n", .scalar 5)]) ]

/-- Witness for C4 at the diamond graph with rank `3 - i`. -/
theorem claim_C4_witness :
    compute_children witnessStore 4 0
        = dedupFirst (preorder_descendants witnessStore 4 0)
      ∧ (compute_children witnessStore 4 0).Nodup
      ∧ (∀ p, p ∈ compute_children witnessStore 4 0
          ↔ p ∈ preorder_descendants witnessStore 4 0)
      ∧ (∀ p ∈ compute_children witnessStore 4 0,
          (compute_children witnessStore 4 0).count p = 1)
      ∧ Ptr.res 0 ∉ compute_children witnessStore 4 0 :=
  claim_C4_compute_children witnessStore 4 0 (fun i => 3 - i) (by decide)

theorem witness_diamond_children_shared_once :
    compute_children witnessStore 4 0 = [Ptr.res 3, Ptr.res 1, Ptr.res 2] := by
  decide

/-- Link-set returned by the API for an uploaded resource
(`resp.json()['links']`); only the `self` entry is read by the engine. -/
structure LinksV where
  self : String
  deriving DecidableEq, Repr

/-- Value stored in the identity attributes of a resource: either a URL
string or a link-set (the upload loop stores the link-set returned by
`_upload`, while `_upload`'s no-op branch returns the `self` URL string). -/
inductive UrlV where
  | s (v : String)
  | l (v : LinksV)
  deriving DecidableEq, Repr

/-- Python truthiness of an optional identity attribute: absent (`None`) and
the empty string are falsy; a link-set (a non-empty dict) is truthy. -/
def truthyUrl : Option UrlV → Bool
  | none => false
  | some (.s v) => v ≠ ""
  | some (.l _) => true

/-- Mutable per-object attribute state manipulated by the schedulers.  A
`none` models an absent attribute (`getattr` default).  `identity` models the
server identity; *modelled from the spec*: the resource object model (the
external `lfview.resources` library) exposes the server identity through both
`_url` and `_links`, so both attributes are views of this one field. -/
structure RAttrs where
  identity : Option UrlV := none
  touched : Option Bool := none
  futureLinks : Option Nat := none
  changeObserver : Bool := false
  futureUrl : Option UrlV := none
  thumbnail : Bool := false
  deriving DecidableEq, Repr

/-- View of the identity as `_links` (*modelled from the spec*: the external
resource object model derives the link-set from the identity; a plain URL
string identity yields a link-set whose `self` is that string). -/
def attrLinks : Option UrlV → Option LinksV
  | none => none
  | some (.l L) => some L
  | some (.s v) => some ⟨v⟩

/-- Network write operation issued by the upload engine. -/
inductive NetOp where
  | post (url : String)
  | patch (url : String)
  | put (url : String)
  deriving DecidableEq, Repr

deriving instance DecidableEq for Except

/-- Result value of a completed future: either the outcome of an `_upload`
task (a raised error's message, or the returned link-set / URL), or the
response of a binary file upload task. -/
inductive FutVal where
  | links (r : Except String UrlV)
  | fileResp (ok : Bool) (text : String)
  deriving DecidableEq, Repr

/-- State of a future handle: still pending (parallel executor, not yet
completed) or done with a value. -/
inductive FutSt where
  | pending
  | done (v : FutVal)
  deriving DecidableEq, Repr

/-- State threaded through the upload engine: the object graph, per-object
attribute state, the future store, the list of in-flight binary-upload
futures, and the trace of network write calls issued so far. -/
structure SchedState where
  store : Store
  attrs : Nat → RAttrs
  futures : Nat → Option FutSt
  nextFut : Nat
  fileFuts : List Nat
  netOps : List NetOp

/-- Update the attribute record of one object. -/
def setAttr (st : SchedState) (i : Nat) (a : RAttrs) : SchedState :=
  { st with attrs := fun j => if j = i then a else st.attrs j }

/-- `is_uploaded` from `utils.py` (lines 202-208): a URL string is always
up-to-date; otherwise the resource must have a truthy `_url` and a recorded
`_touched` that is `False` (`getattr(resource, '_touched', True)` defaults to
dirty). -/
def is_uploaded (st : SchedState) (p : Ptr) : Bool :=
  match p with
  | .url _ => true
  | .res i =>
    if !truthyUrl (st.attrs i).identity then false
    else !((st.attrs i).touched.getD true)

/-- `touch` from `utils.py` (lines 169-181): mark a resource as updated since
last upload; with `recursive=True` also mark every computed child that is not
a URL string.  `fuel` bounds the walker recursion. -/
def touch (st : SchedState) (fuel rid : Nat) (recursive : Bool) : SchedState :=
  let st1 := setAttr st rid { st.attrs rid with touched := some true }
  if recursive then
    (compute_children st1.store fuel rid).foldl
      (fun acc p =>
        match p with
        | .url _ => acc
        | .res i => setAttr acc i { acc.attrs i with touched := some true })
      st1
  else st1

/-- `process_uploaded_resource` from `utils.py` (lines 184-199) at the level
of the attribute map: store the given value as `_url` only if no truthy
`_url` is present, reset `_future_url`, install the change observer if not
yet installed, and clear the dirty flag.  (The verbose log line is not
modelled.) -/
def processUploadedAttrs (attrs : Nat → RAttrs) (rid : Nat) (url : UrlV) :
    Nat → RAttrs :=
  fun j =>
    if j = rid then
      let a0 := attrs rid
      let a1 :=
        if truthyUrl a0.identity then a0 else { a0 with identity := some url }
      { a1 with
        futureUrl := none, changeObserver := true, touched := some false }
    else attrs j

/-- `process_uploaded_resource` acting on the scheduler state. -/
def process_uploaded_resource (st : SchedState) (rid : Nat) (url : UrlV) :
    SchedState :=
  { st with attrs := processUploadedAttrs st.attrs rid url }

/-- Modelled from the spec: the change-notification dispatch of the external
`properties` library.  Assigning a property value notifies the installed
observer only when the value actually changed (`change_only=True`); the
observer installed by `process_uploaded_resource` runs `touch(resource)`
(non-recursive). -/
def notifyPropAssign (st : SchedState) (fuel rid : Nat) (changed : Bool) :
    SchedState :=
  if (st.attrs rid).changeObserver && changed then touch st fuel rid false
  else st

/-- C6: `is_uploaded` returns true exactly when the input has a (truthy)
server identity and a recorded clear dirty flag, except that a bare URL
string is always considered uploaded; an input with an identity but no
recorded dirty state (`_touched` absent) is treated as dirty. -/
theorem claim_C6_is_uploaded (st : SchedState) :
    (∀ s, is_uploaded st (Ptr.url s) = true)
    ∧ (∀ i, is_uploaded st (Ptr.res i) = true ↔
        (truthyUrl (st.attrs i).identity = true
          ∧ (st.attrs i).touched = some false))
    ∧ (∀ i, (st.attrs i).touched = none → is_uploaded st (Ptr.res i) = false) := by
  refine ⟨fun s => rfl, fun i => ?_, fun i ht => ?_⟩
  · unfold is_uploaded
    cases htr : truthyUrl (st.attrs i).identity
    · simp [htr]
    · cases ht : (st.attrs i).touched with
      | none => simp [htr, ht]
      | some b => cases b <;> simp [htr, ht]
  · unfold is_uploaded
    cases htr : truthyUrl (st.attrs i).identity <;> simp [ht, htr]

/-- C5: `process_uploaded_resource` assigns the identity only when none is
present yet, clears the dirty flag, installs the change observer, and
afterwards the mutation-to-dirty wiring is active: a property assignment that
actually changes a value on a resource with an installed observer re-sets the
dirty flag. -/
theorem claim_C5_process_uploaded (st : SchedState) (rid : Nat) (url : UrlV)
    (fuel : Nat) :
    ((process_uploaded_resource st rid url).attrs rid).identity
        = (if truthyUrl (st.attrs rid).identity then (st.attrs rid).identity
           else some url)
    ∧ ((process_uploaded_resource st rid url).attrs rid).touched = some false
    ∧ ((process_uploaded_resource st rid url).attrs rid).changeObserver = true
    ∧ (∀ (st2 : SchedState) (rid2 fuel2 : Nat),
        (st2.attrs rid2).changeObserver = true →
        ((notifyPropAssign st2 fuel2 rid2 true).attrs rid2).touched = some true)
    ∧ ((notifyPropAssign (process_uploaded_resource st rid url) fuel rid
        true).attrs rid).touched = some true := by
  have hobs : ∀ (st2 : SchedState) (rid2 fuel2 : Nat),
      (st2.attrs rid2).changeObserver = true →
      ((notifyPropAssign st2 fuel2 rid2 true).attrs rid2).touched = some true := by
    intro st2 rid2 fuel2 h2
    unfold notifyPropAssign touch
    simp [h2, setAttr]
  refine ⟨?_, ?_, ?_, hobs, ?_⟩
  · unfold process_uploaded_resource processUploadedAttrs
    by_cases h : truthyUrl (st.attrs rid).identity = true
    · simp [h]
    · simp at h
      simp [h]
  · unfold process_uploaded_resource processUploadedAttrs
    by_cases h : truthyUrl (st.attrs rid).identity = true <;> simp [h]
  · unfold process_uploaded_resource processUploadedAttrs
    by_cases h : truthyUrl (st.attrs rid).identity = true <;> simp [h]
  · apply hobs
    unfold process_uploaded_resource processUploadedAttrs
    by_cases h : truthyUrl (st.attrs rid).identity = true <;> simp [h]

/-- Scheduler state with no resources, no futures and no traffic, used by
witnesses. -/
def emptySched : SchedState :=
  { store := [], attrs := fun _ => {}, futures := fun _ => none,
    nextFut := 0, fileFuts := [], netOps := [] }

/-- Witness for C5: processing object 0 in the empty state clears the dirty
flag, and a subsequent changing property assignment re-sets it; the inner
wiring statement is discharged at the processed state using the installed
observer. -/
theorem claim_C5_witness :
    ((process_uploaded_resource emptySched 0 (.s "u")).attrs 0).touched
        = some false
    ∧ ((notifyPropAssign (process_uploaded_resource emptySched 0 (.s "u"))
        1 0 true).attrs 0).touched = some true := by
  have h := claim_C5_process_uploaded emptySched 0 (.s "u") 1
  exact ⟨h.2.1, h.2.2.2.1 (process_uploaded_resource emptySched 0 (.s "u")) 0 1
    h.2.2.1⟩

/-- JSON value appearing in an upload body: a URL string, a child's `_url`
attribute value, a child object without `_url`, a list of those, or an opaque
serialized scalar. -/
inductive JItem where
  | jStr (s : String)
  | jId (u : UrlV)
  | jRes (i : Nat)
  | jList (xs : List JItem)
  | jScalar (v : Nat)

/-- JSON value substituted for one pointer value in an upload body:
`getattr(value, '_url', value)` keeps a URL string as-is, uses a child's
`_url` attribute when present, and otherwise the child object itself. -/
def jsonOfPtr (st : SchedState) : Ptr → JItem
  | .url s => .jStr s
  | .res i =>
    match (st.attrs i).identity with
    | some u => .jId u
    | none => .jRes i

/-- `construct_upload_dict` from `utils.py` (lines 211-227): build the upload
body over the properties in declaration order, skipping ignored names and
`None` values, substituting `_url` attributes for pointers and serializing
other values. -/
def construct_upload_dict (st : SchedState) (rid : Nat) :
    List (String × JItem) :=
  (storeProps st.store rid).filterMap (fun f =>
    if f.1 ∈ IGNORED_PROPS then none
    else
      match f.2 with
      | .fnone => none
      | .scalar v => some (f.1, .jScalar v)
      | .ptr p => some (f.1, jsonOfPtr st p)
      | .ptrList ps => some (f.1, .jList (ps.map (jsonOfPtr st))))

/-- Response of a resource write call (POST/PATCH) or of the thumbnail PUT:
success flag, body text, the returned link-set, whether a `thumbnail` link is
present, and its URL. -/
structure GResp where
  ok : Bool
  text : String
  links : LinksV
  hasThumbnailLink : Bool
  thumbnailUrl : String
  deriving DecidableEq, Repr

/-- External collaborators of the upload engine.  Each field is *modelled
from the spec*, abstracting a collaborator outside `src` (HTTP transport
responses, resource self-validation, type-specific body preparation, the
thread pool completing futures between scans). -/
structure UploadEnv where
  executorSync : Bool
  postResp : Nat → List (String × JItem) → GResp
  patchResp : Nat → List (String × JItem) → GResp
  thumbResp : Nat → GResp
  postUrl : Nat → String
  prepare : Store → Nat → Props
  validate : Store → Nat → Bool
  fileJob : Store → Nat → Bool
  fileRespOf : Nat → Bool × String
  advance : SchedState → SchedState

/-- Replace the property dictionary of one bound resource in the store,
preserving binding order; an unbound identity leaves the store unchanged. -/
def storeSet (store : Store) (rid : Nat) (ps : Props) : Store :=
  store.map (fun e => if e.1 = rid then (e.1, ps) else e)

/-- Set the state of one future handle. -/
def futSet (f : Nat → Option FutSt) (fid : Nat) (v : FutSt) :
    Nat → Option FutSt :=
  fun j => if j = fid then some v else f j

/-- Allocate a future for a binary payload upload task
(`executor.submit(utils.upload_array, ...)` / `upload_image` in `_upload`)
and record it in `file_resp_futures`.  With the synchronous executor the task
runs inline and the future is done on creation; with the parallel executor it
starts pending. -/
def submitFileFut (env : UploadEnv) (st : SchedState) : SchedState :=
  let fid := st.nextFut
  let fval :=
    if env.executorSync then
      FutSt.done (.fileResp (env.fileRespOf fid).1 (env.fileRespOf fid).2)
    else FutSt.pending
  { st with
    futures := futSet st.futures fid fval,
    nextFut := fid + 1,
    fileFuts := st.fileFuts ++ [fid] }

/-- Tail of `_upload` after a successful write response (session.py lines
330-369): submit the binary payload task if the resource carries one, and if
a thumbnail is attached and the response exposes a thumbnail link, PUT the
thumbnail and submit its image upload task when that PUT succeeds.  (The
chunked PUTs issued inside the binary upload task itself are modelled by
`upload_array` separately.) -/
def afterWrite (env : UploadEnv) (st : SchedState) (rid : Nat) (resp : GResp) :
    SchedState × Except String UrlV :=
  if !resp.ok then (st, .error resp.text)
  else
    let st1 := if env.fileJob st.store rid then submitFileFut env st else st
    let st2 :=
      if (st1.attrs rid).thumbnail && resp.hasThumbnailLink then
        let stp := { st1 with netOps := st1.netOps ++ [.put resp.thumbnailUrl] }
        if (env.thumbResp rid).ok then submitFileFut env stp else stp
      else st1
    (st2, .ok (.l resp.links))

/-- `UploadSession._upload` (session.py lines 286-369): POST a new resource,
PATCH a dirty resource with an existing link-set, or return the existing
`self` link without any network call when the resource has a link-set and a
clear dirty flag.  A failed response raises with the response text.  (The
array-compression block, lines 304-316, only adjusts the opaque JSON body and
is absorbed into `env.postResp`/`env.patchResp`.) -/
def uploadCore (env : UploadEnv) (st : SchedState) (rid : Nat)
    (body : List (String × JItem)) : SchedState × Except String UrlV :=
  let a := st.attrs rid
  match attrLinks a.identity with
  | none =>
    afterWrite env
      { st with netOps := st.netOps ++ [.post (env.postUrl rid)] } rid
      (env.postResp rid body)
  | some L =>
    if a.touched.getD true then
      afterWrite env
        { st with netOps := st.netOps ++ [.patch L.self] } rid
        (env.patchResp rid body)
    else (st, .ok (.s L.self))

/-- Record of one write-task submission by the upload loop: the resource
submitted and the scheduler state at the moment the children guard was
evaluated and the task was handed to the executor. -/
structure SubmitEvent where
  rid : Nat
  guardState : SchedState

/-- Submission of the `_upload` write task for one resource
(`res._future_links = executor.submit(self._upload, ...)`, session.py lines
243-260): build the body, allocate a future, and either run the task inline
(synchronous executor; an exception propagates out of the submission itself)
or leave the future pending for the worker pool. -/
def submitUpload (env : UploadEnv) (st : SchedState) (rid : Nat) :
    Except String SchedState :=
  let body := construct_upload_dict st rid
  let fid := st.nextFut
  let stA := { st with nextFut := fid + 1 }
  if env.executorSync then
    match uploadCore env stA rid body with
    | (st2, .ok v) =>
      .ok (setAttr
        { st2 with futures := futSet st2.futures fid (.done (.links (.ok v))) }
        rid { st2.attrs rid with futureLinks := some fid })
    | (_, .error e) => .error e
  else
    .ok (setAttr { stA with futures := futSet stA.futures fid .pending }
      rid { stA.attrs rid with futureLinks := some fid })

/-- One pass of the upload loop body over the pending resources (session.py
lines 218-260): skip uploaded resources, finalize resources whose write
future completed (`process_uploaded_resource`), leave resources with a
pending future, and for a resource with no future yet whose computed children
are all uploaded, prepare the body (firing the change observer if the
type-specific preparation changed a value), validate, and submit the write
task.  Returns the accumulated submission events and either a raised error or
the updated state with the `uploads_complete` flag. -/
def uploadScan (env : UploadEnv) (fuel : Nat) :
    List Ptr → SchedState → Bool → List SubmitEvent →
    List SubmitEvent × Except String (SchedState × Bool)
  | [], st, complete, evs => (evs, .ok (st, complete))
  | p :: rest, st, complete, evs =>
    if is_uploaded st p then uploadScan env fuel rest st complete evs
    else
      match p with
      | .url _ => uploadScan env fuel rest st complete evs
      | .res rid =>
        match (st.attrs rid).futureLinks with
        | some fid =>
          match st.futures fid with
          | some (.done (.links (.ok v))) =>
            uploadScan env fuel rest (process_uploaded_resource st rid v)
              complete evs
          | some (.done (.links (.error e))) => (evs, .error e)
          | _ => uploadScan env fuel rest st false evs
        | none =>
          if (compute_children st.store fuel rid).any
              (fun c => !is_uploaded st c) then
            uploadScan env fuel rest st false evs
          else
            if !env.validate
                (storeSet st.store rid (env.prepare st.store rid)) rid then
              (evs, .error "ValidationError")
            else
              match
                submitUpload env
                  (notifyPropAssign
                    { st with
                      store := storeSet st.store rid (env.prepare st.store rid) }
                    fuel rid
                    (decide (env.prepare st.store rid ≠ storeProps st.store rid)))
                  rid with
              | .ok st' => uploadScan env fuel rest st' false (evs ++ [⟨rid, st⟩])
              | .error e => (evs ++ [⟨rid, st⟩], .error e)

/-- The `while True` upload loop (session.py lines 217-262), fuel-bounded:
run passes until a pass completes with no remaining work; between passes the
executor may complete pending futures (`env.advance`). -/
def uploadLoopIter (env : UploadEnv) (fuel : Nat) (items : List Ptr) :
    Nat → SchedState → List SubmitEvent × Except String SchedState
  | 0, _ => ([], .error "fuel exhausted")
  | n + 1, st =>
    match uploadScan env fuel items st true [] with
    | (evs, .error e) => (evs, .error e)
    | (evs, .ok (st', complete)) =>
      if complete then (evs, .ok st')
      else
        let r := uploadLoopIter env fuel items n (env.advance st')
        (evs ++ r.1, r.2)

/-- One pass over a snapshot of `file_resp_futures` (session.py lines
264-281): completed successful binary uploads are removed, a completed failed
one raises with the response text, pending ones stay. -/
def drainScan (st : SchedState) : List Nat → Except String SchedState
  | [] => .ok st
  | fid :: rest =>
    match st.futures fid with
    | some (.done (.fileResp ok text)) =>
      if ok then drainScan { st with fileFuts := st.fileFuts.erase fid } rest
      else .error text
    | _ => drainScan st rest

/-- The `while file_resp_futures` drain loop (session.py lines 263-281),
fuel-bounded. -/
def drainLoop (env : UploadEnv) : Nat → SchedState → Except String SchedState
  | 0, _ => .error "fuel exhausted"
  | n + 1, st =>
    if st.fileFuts.isEmpty then .ok st
    else
      match drainScan st st.fileFuts with
      | .error e => .error e
      | .ok st' => drainLoop env n (env.advance st')

/-- Outcome of `UploadSession.upload`: the submission events of the run and
either a raised error or the returned `self` URL with the final state. -/
structure UploadResult where
  events : List SubmitEvent
  outcome : Except String (String × SchedState)

/-- Tail of `UploadSession.upload` after the upload loop: run the binary
drain loop and return `resource._links['self']` (an absent link-set is the
Python `AttributeError`). -/
def uploadFinish (env : UploadEnv) (lfuel rootId : Nat)
    (r : List SubmitEvent × Except String SchedState) : UploadResult :=
  { events := r.1,
    outcome :=
      match r.2 with
      | .error e => .error e
      | .ok st2 =>
        match drainLoop env lfuel st2 with
        | .error e => .error e
        | .ok st3 =>
          match attrLinks (st3.attrs rootId).identity with
          | some L => .ok (L.self, st3)
          | none => .error "AttributeError" }

/-- Resources the upload loop iterates over (session.py lines 208-212): the
computed children plus the root, dropping anything already uploaded. -/
def uploadItems (wfuel rootId : Nat) (st0 : SchedState) : List Ptr :=
  (compute_children st0.store wfuel rootId ++ [Ptr.res rootId]).filter
    (fun p => !is_uploaded st0 p)

/-- `UploadSession.upload` (session.py lines 206-284): gather the computed
children plus the root, drop resources that are already uploaded, attach the
thumbnail, run the upload loop and the binary drain loop, and return
`resource._links['self']`.  (The input-type guards of lines 198-205, which
reject non-resources and Slide/Feedback inputs, and verbose logging are not
modelled.) -/
def uploadRun (env : UploadEnv) (wfuel lfuel : Nat) (rootId : Nat)
    (thumbnail : Bool) (st0 : SchedState) : UploadResult :=
  let st1 :=
    if thumbnail then
      setAttr st0 rootId { st0.attrs rootId with thumbnail := true }
    else st0
  uploadFinish env lfuel rootId
    (uploadLoopIter env wfuel (uploadItems wfuel rootId st0) lfuel st1)

/-- Invariant attached to a submission event: at the recorded state, every
child computed by the walker for the submitted resource was uploaded. -/
def guardOK (fuel : Nat) (e : SubmitEvent) : Prop :=
  ∀ c ∈ compute_children e.guardState.store fuel e.rid,
    is_uploaded e.guardState c = true

theorem uploadScan_events (env : UploadEnv) (fuel : Nat) :
    ∀ (items : List Ptr) (st : SchedState) (complete : Bool)
      (evs : List SubmitEvent),
      (∀ e ∈ evs, guardOK fuel e) →
      ∀ e ∈ (uploadScan env fuel items st complete evs).1, guardOK fuel e
  | [], st, complete, evs, hevs => by
    rw [uploadScan]
    exact hevs
  | .url s :: rest, st, complete, evs, hevs => by
    rw [uploadScan]
    exact uploadScan_events env fuel rest st complete evs hevs
  | .res rid :: rest, st, complete, evs, hevs => by
    rw [uploadScan]
    split
    · exact uploadScan_events env fuel rest st complete evs hevs
    · split
      · split <;>
          first
          | exact uploadScan_events env fuel rest _ complete evs hevs
          | exact hevs
          | exact uploadScan_events env fuel rest st false evs hevs
      · split
        · exact uploadScan_events env fuel rest st false evs hevs
        · rename_i hguard
          have hnew : guardOK fuel ⟨rid, st⟩ := by
            intro c hc
            rcases hb : is_uploaded st c with _ | _
            · exfalso
              apply hguard
              exact List.any_eq_true.mpr ⟨c, hc, by simp [hb]⟩
            · rfl
          have hall : ∀ e ∈ evs ++ [(⟨rid, st⟩ : SubmitEvent)],
              guardOK fuel e := by
            intro e he
            rcases List.mem_append.mp he with h | h
            · exact hevs e h
            · simp at h
              subst h
              exact hnew
          split
          · exact hevs
          · split
            · exact uploadScan_events env fuel rest _ false _ hall
            · exact hall

theorem uploadLoopIter_events (env : UploadEnv) (fuel : Nat)
    (items : List Ptr) :
    ∀ (n : Nat) (st : SchedState),
      ∀ e ∈ (uploadLoopIter env fuel items n st).1, guardOK fuel e
  | 0, st => by
    rw [uploadLoopIter]
    intro e he
    simp at he
  | n + 1, st => by
    rw [uploadLoopIter]
    have hscan := uploadScan_events env fuel items st true [] (by simp)
    split
    · rename_i evs e heq
      intro ev hev
      apply hscan
      rw [heq]
      exact hev
    · rename_i evs st' complete heq
      split
      · intro ev hev
        apply hscan
        rw [heq]
        exact hev
      · intro ev hev
        rcases List.mem_append.mp hev with h | h
        · apply hscan
          rw [heq]
          exact h
        · exact uploadLoopIter_events env fuel items n (env.advance st') ev h

theorem uploadFinish_events (env : UploadEnv) (lfuel rootId : Nat)
    (r : List SubmitEvent × Except String SchedState) :
    (uploadFinish env lfuel rootId r).events = r.1 := rfl

/-- C1: whenever the upload scheduler submits a resource's write task
(creating its future handle), every child computed by the walker satisfies
`is_uploaded` in the scheduler state at that moment — in particular no
resource is submitted before all of its computed descendants are uploaded.
This holds for every object graph, initial state, executor and fuel. -/
theorem claim_C1_upload_guard (env : UploadEnv) (wfuel lfuel rootId : Nat)
    (thumbnail : Bool) (st0 : SchedState) :
    ∀ e ∈ (uploadRun env wfuel lfuel rootId thumbnail st0).events,
      ∀ c ∈ compute_children e.guardState.store wfuel e.rid,
        is_uploaded e.guardState c = true := by
  intro e he
  rw [uploadRun, uploadFinish_events] at he
  exact uploadLoopIter_events env wfuel (uploadItems wfuel rootId st0) lfuel _
    e he

/-- Concrete synchronous environment used by witnesses: every write succeeds
and returns a fixed link-set, preparation leaves properties unchanged,
validation always passes, and no binary payloads are attached. -/
def witnessEnv : UploadEnv :=
  { executorSync := true,
    postResp := fun _ _ =>
      { ok := true, text := "", links := ⟨"https://api/self"⟩,
        hasThumbnailLink := false, thumbnailUrl := "" },
    patchResp := fun _ _ =>
      { ok := true, text := "", links := ⟨"https://api/self"⟩,
        hasThumbnailLink := false, thumbnailUrl := "" },
    thumbResp := fun _ =>
      { ok := true, text := "", links := ⟨""⟩,
        hasThumbnailLink := false, thumbnailUrl := "" },
    postUrl := fun _ => "https://api/upload",
    prepare := fun s i => storeProps s i,
    validate := fun _ _ => true,
    fileJob := fun _ _ => false,
    fileRespOf := fun _ => (true, ""),
    advance := fun st => st }

/-- Two-level witness graph: resource 0 points at resource 1. -/
def chainStore : Store :=
  [(0, [("child", .ptr (.res 1))]), (1, [("n", .scalar 1)])]

/-- Fresh scheduler state over the two-level graph. -/
def chainState : SchedState :=
  { store := chainStore, attrs := fun _ => {}, futures := fun _ => none,
    nextFut := 0, fileFuts := [], netOps := [] }

/-- Witness for C1: the fresh two-level upload performs two submissions, and
each satisfies the children guard at its recorded state. -/
theorem claim_C1_witness :
    (uploadRun witnessEnv 2 5 0 false chainState).events.length = 2
    ∧ ∀ e ∈ (uploadRun witnessEnv 2 5 0 false chainState).events,
        ∀ c ∈ compute_children e.guardState.store 2 e.rid,
          is_uploaded e.guardState c = true := by
  refine ⟨rfl, ?_⟩
  exact claim_C1_upload_guard witnessEnv 2 5 0 false chainState

/-- C3: a second `upload` of an already-uploaded, unmodified resource graph
(every candidate resource satisfies `is_uploaded`, no binary uploads in
flight, and the root has a link-set) performs no submissions and leaves the
state — including the network write trace — unchanged, returning the stored
identity's `self` URL; and at the `_upload` level, a resource with a link-set
and a clear dirty flag short-circuits to its `self` link without touching the
state (no POST, PATCH or PUT). -/
theorem claim_C3_idempotent (env : UploadEnv) (wfuel lfuel rootId : Nat)
    (st0 : SchedState) (L : LinksV)
    (hall : ∀ p ∈ compute_children st0.store wfuel rootId ++ [Ptr.res rootId],
      is_uploaded st0 p = true)
    (hfile : st0.fileFuts = [])
    (hl : attrLinks (st0.attrs rootId).identity = some L) :
    uploadRun env wfuel (lfuel + 1) rootId false st0
        = { events := [], outcome := .ok (L.self, st0) }
    ∧ (∀ (st : SchedState) (rid : Nat) (body : List (String × JItem))
        (L' : LinksV),
        attrLinks (st.attrs rid).identity = some L' →
        (st.attrs rid).touched = some false →
        uploadCore env st rid body = (st, .ok (.s L'.self))) := by
  constructor
  · have hitems : uploadItems wfuel rootId st0 = [] := by
      unfold uploadItems
      apply List.filter_eq_nil_iff.mpr
      intro p hp
      simp [hall p hp]
    have hloop : uploadLoopIter env wfuel (uploadItems wfuel rootId st0)
        (lfuel + 1) st0 = ([], .ok st0) := by
      rw [hitems, uploadLoopIter, uploadScan]
      rfl
    have hdrain : drainLoop env (lfuel + 1) st0 = .ok st0 := by
      rw [drainLoop]
      simp [hfile]
    rw [uploadRun]
    simp only [Bool.false_eq_true, if_false, hloop, uploadFinish, hdrain, hl]
  · intro st rid body L' hl' ht'
    simp only [uploadCore, hl', ht']
    simp

/-- Scheduler state over the two-level graph in which both resources are
uploaded: identities assigned, dirty flags clear, observers installed. -/
def uploadedState : SchedState :=
  { store := chainStore,
    attrs := fun _ =>
      { identity := some (.l ⟨"https://api/self"⟩), touched := some false,
        futureLinks := none, changeObserver := true, futureUrl := none,
        thumbnail := false },
    futures := fun _ => none, nextFut := 0, fileFuts := [], netOps := [] }

/-- Witness for C3: re-uploading the uploaded two-level graph makes no
submissions, changes nothing and returns the stored identity; `_upload` on
the clean root is a no-op returning its `self` link. -/
theorem claim_C3_witness :
    uploadRun witnessEnv 2 4 0 false uploadedState
        = { events := [],
            outcome := .ok ("https://api/self", uploadedState) }
    ∧ uploadCore witnessEnv uploadedState 0 []
        = (uploadedState, .ok (.s "https://api/self")) := by
  have h := claim_C3_idempotent witnessEnv 2 3 0 uploadedState
    ⟨"https://api/self"⟩ (by decide) rfl rfl
  exact ⟨h.1, h.2 uploadedState 0 [] ⟨"https://api/self"⟩ rfl rfl⟩

/-- Decimal digit characters of a natural number, most significant first
(fuel-bounded, structural). -/
def natDigitsAux : Nat → Nat → List Char
  | 0, _ => []
  | fuel + 1, n =>
    if n = 0 then []
    else natDigitsAux fuel (n / 10) ++ [Char.ofNat (48 + n % 10)]

/-- Decimal rendering of a natural number, as Python `str`/`format` produce
inside header values. -/
def natStr (n : Nat) : String :=
  if n = 0 then "0" else ⟨natDigitsAux 24 n⟩

/-- One range-addressed write issued by `upload_chunk` (utils.py lines
23-38): a PUT of `bytes[start:stop]` with `Content-Length`, `Content-Type`
and `Content-Range: bytes {start}-{stop-1}/{total}` headers. -/
structure ChunkCall where
  start : Nat
  stop : Nat
  total : Nat
  contentLength : String
  contentType : String
  contentRange : String
  deriving DecidableEq, Repr

/-- `upload_chunk` from `utils.py` (lines 23-38). -/
def upload_chunk (start stop total : Nat) (content_type : String) :
    ChunkCall :=
  { start := start, stop := stop, total := total,
    contentLength := natStr (stop - start),
    contentType := content_type,
    contentRange :=
      "bytes " ++ natStr start ++ "-" ++ natStr (stop - 1) ++ "/"
        ++ natStr total }

/-- Python `range(start, stop, step)` for a positive step. -/
def pyRange (start stop step : Nat) : List Nat :=
  (List.range ((stop - start + step - 1) / step)).map (fun i => start + i * step)

/-- `upload_array` from `utils.py` (lines 41-58): write the byte buffer of
length `nbytes` in chunks `bytes[start:min(start+chunk_size, nbytes)]` for
`start in range(0, nbytes, chunk_size)`, with content type
`application/octet-stream`.  The returned list is the sequence of
range-addressed PUT calls. -/
def upload_array (nbytes chunk_size : Nat) : List ChunkCall :=
  (pyRange 0 nbytes chunk_size).map
    (fun start =>
      upload_chunk start (min (start + chunk_size) nbytes) nbytes
        "application/octet-stream")

/-- C2: uploading a payload of `CHUNK_SIZE*2 + 37` bytes with chunk size
`CHUNK_SIZE` issues exactly 3 range-addressed writes; their `(start, stop)`
ranges partition `[0, total)` contiguously (first start 0, each stop equal to
the next start, each chunk non-empty, final stop equal to the total), and
each call carries the header `Content-Range: bytes {start}-{stop-1}/{total}`. -/
theorem claim_C2_chunking :
    (upload_array (CHUNK_SIZE * 2 + 37) CHUNK_SIZE).length = 3
    ∧ (upload_array (CHUNK_SIZE * 2 + 37) CHUNK_SIZE).map
        (fun c => (c.start, c.stop))
        = [(0, 20971520), (20971520, 41943040), (41943040, 41943077)]
    ∧ ((upload_array (CHUNK_SIZE * 2 + 37) CHUNK_SIZE).head?.map
        (fun c => c.start)) = some 0
    ∧ (((upload_array (CHUNK_SIZE * 2 + 37) CHUNK_SIZE).zip
        (upload_array (CHUNK_SIZE * 2 + 37) CHUNK_SIZE).tail).all
        (fun q => q.1.stop == q.2.start)) = true
    ∧ ((upload_array (CHUNK_SIZE * 2 + 37) CHUNK_SIZE).all
        (fun c => c.start < c.stop)) = true
    ∧ ((upload_array (CHUNK_SIZE * 2 + 37) CHUNK_SIZE).getLast?.map
        (fun c => c.stop)) = some (CHUNK_SIZE * 2 + 37)
    ∧ (upload_array (CHUNK_SIZE * 2 + 37) CHUNK_SIZE).map
        (fun c => c.contentRange)
        = ["bytes 0-20971519/41943077", "bytes 20971520-41943039/41943077",
           "bytes 41943040-41943076/41943077"] := by
  decide

/-- Future produced by the synchronous executor (`utils.py` lines 554-570):
the result is stored at construction. -/
structure SynchronousFuture (β : Type) where
  mk ::
  stored : β

/-- `SynchronousFuture.done` (utils.py lines 564-566): always true. -/
def SynchronousFuture.done (_ : SynchronousFuture β) : Bool := true

/-- `SynchronousFuture.result` (utils.py lines 568-570): the stored value. -/
def SynchronousFuture.result (f : SynchronousFuture β) : β := f.stored

/-- `SynchronousExecutor.submit` (utils.py lines 543-546): run the function
inline and wrap the result; an exception raised by the function propagates
out of `submit` itself, so no future is produced in that case. -/
def SynchronousExecutor.submit (f : α → Except ε β) (x : α) :
    Except ε (SynchronousFuture β) :=
  match f x with
  | .error e => .error e
  | .ok v => .ok ⟨v⟩

/-- `SynchronousExecutor.shutdown` (utils.py lines 548-551): does nothing. -/
def SynchronousExecutor.shutdown (_wait : Bool) : Unit := ()

/-- C10: the synchronous executor runs the submitted function inline: a
raised exception propagates out of `submit` itself and no future handle is
returned, while a returned value yields a handle that is already done and
whose `result()` is exactly that value. -/
theorem claim_C10_synchronous_executor (f : α → Except ε β) (x : α) :
    (∀ e, f x = .error e → SynchronousExecutor.submit f x = .error e)
    ∧ (∀ v, f x = .ok v →
        SynchronousExecutor.submit f x = .ok ⟨v⟩
        ∧ (SynchronousFuture.mk v).done = true
        ∧ (SynchronousFuture.mk v).result = v) := by
  constructor
  · intro e he
    unfold SynchronousExecutor.submit
    rw [he]
  · intro v hv
    refine ⟨?_, rfl, rfl⟩
    unfold SynchronousExecutor.submit
    rw [hv]

/-- Witness for C10 at a concrete failing and a concrete succeeding
function. -/
theorem claim_C10_witness :
    SynchronousExecutor.submit
        (fun n => if n = 0 then Except.error "zero" else Except.ok (n + 1)) 0
      = .error "zero"
    ∧ SynchronousExecutor.submit
        (fun n => if n = 0 then Except.error "zero" else Except.ok (n + 1)) 4
      = .ok ⟨5⟩
    ∧ (SynchronousFuture.mk 5).done = true
    ∧ (SynchronousFuture.mk 5).result = 5 := by
  have h0 := claim_C10_synchronous_executor
    (fun n => if n = 0 then Except.error "zero" else Except.ok (n + 1)) 0
  have h4 := claim_C10_synchronous_executor
    (fun n => if n = 0 then Except.error "zero" else Except.ok (n + 1)) 4
  have h4ok := h4.2 5 (by decide)
  exact ⟨h0.1 "zero" (by decide), h4ok.1, h4ok.2.1, h4ok.2.2⟩

/-- Character class `[a-z0-9]` of the URL regexes. -/
def isSlugChar (c : Char) : Bool :=
  (97 ≤ c.toNat && c.toNat ≤ 122) || (48 ≤ c.toNat && c.toNat ≤ 57)

/-- Matcher for one `[a-z0-9]+` regex group. -/
def isSlug (s : String) : Bool :=
  !s.data.isEmpty && s.data.all isSlugChar

/-- Split a character list on `/`. -/
def splitSlashAux (cur : List Char) : List Char → List String
  | [] => [String.mk cur.reverse]
  | c :: cs =>
    if c = '/' then String.mk cur.reverse :: splitSlashAux [] cs
    else splitSlashAux (c :: cur) cs

/-- Split a string on `/`, as the URL regexes segment their input. -/
def splitSlash (s : String) : List String := splitSlashAux [] s.data

/-- Join segments with `/`. -/
def joinSlash : List String → String
  | [] => ""
  | [x] => x
  | x :: xs => x ++ "/" ++ joinSlash xs

/-- Captured groups of the app-URL regex
`^(?P<base>.+)/app/(?P<org>[a-z0-9]+)/(?P<proj>[a-z0-9]+)/(?P<view>[a-z0-9]+)$`. -/
structure AppUrlParts where
  base : String
  org : String
  proj : String
  view : String
  deriving DecidableEq, Repr

/-- `match_url_app` from `utils.py` (lines 293-305).  The three trailing
groups cannot contain `/`, so the anchored regex matches exactly when the URL
splits on `/` into a non-empty base, the literal `app`, and three
`[a-z0-9]+` segments. -/
def match_url_app (url : String) : Option AppUrlParts :=
  match (splitSlash url).reverse with
  | view :: proj :: org :: app :: restRev =>
    let base := joinSlash restRev.reverse
    if app = "app" && isSlug org && isSlug proj && isSlug view
        && !base.data.isEmpty then
      some ⟨base, org, proj, view⟩
    else none
  | _ => none

/-- `match_url_project` from `utils.py` (lines 308-320), for
`^(?P<base>.+)/api/v1/project/(org)/(proj)/views/(view)$`. -/
def match_url_project (url : String) : Option AppUrlParts :=
  match (splitSlash url).reverse with
  | view :: views :: proj :: org :: project :: v1 :: api :: restRev =>
    let base := joinSlash restRev.reverse
    if views = "views" && project = "project" && v1 = "v1" && api = "api"
        && isSlug org && isSlug proj && isSlug view
        && !base.data.isEmpty then
      some ⟨base, org, proj, view⟩
    else none
  | _ => none

/-- `convert_url_app_to_project` from `utils.py` (lines 365-380): format
`{base}/api/v1/project/{org}/{proj}/views/{view}` from the app-URL groups,
raising `ValueError` on a non-matching input. -/
def convert_url_app_to_project (url : String) : Except String String :=
  match match_url_app url with
  | none => .error ("Invalid app url: " ++ url)
  | some m =>
    .ok (m.base ++ "/api/v1/project/" ++ m.org ++ "/" ++ m.proj ++ "/views/"
      ++ m.view)

/-- `convert_url_project_to_view` from `utils.py` (lines 383-398): format
`{base}/api/v1/view/{org}/{proj}/{view}` from the project-URL groups,
raising `ValueError` on a non-matching input. -/
def convert_url_project_to_view (url : String) : Except String String :=
  match match_url_project url with
  | none => .error ("Invalid project url: " ++ url)
  | some m =>
    .ok (m.base ++ "/api/v1/view/" ++ m.org ++ "/" ++ m.proj ++ "/" ++ m.view)

/-- Property kind declared on a resource class (`is_pointer` /
`is_list_of_pointers` / anything else). -/
inductive PKind where
  | pointer
  | pointerList
  | scalar
  deriving DecidableEq, Repr

/-- Resource class as resolved from the registries by
`find_class_from_resp`: whether it subclasses the collaboration base model
(Slide/Feedback) and its declared properties. -/
structure ResourceClass where
  isCollab : Bool
  props : List (String × PKind)
  deriving DecidableEq, Repr

/-- Value of one field of a fetched JSON payload. -/
inductive JVal where
  | s (v : String)
  | list (vs : List JVal)
  | other (truthy : Bool)

/-- Python falsiness of a JSON field value (`if ... not value: continue`). -/
def jvalFalsy : JVal → Bool
  | .s v => v.data.isEmpty
  | .list vs => vs.isEmpty
  | .other t => !t

/-- State of `value['links']['location']` in a lookup-table payload, mutated
in place by the download loop. -/
inductive LocState where
  | absent
  | url (u : String)
  | futPending
  | futDone (ok : Bool)
  | resp (ok : Bool)
  deriving DecidableEq, Repr

/-- Fetched resource JSON payload: the optional `type`, the named fields
inspected for pointer URLs, and the binary location link. -/
structure Payload where
  rtype : Option String
  fields : List (String × JVal)
  location : LocState

/-- Response of a metadata GET. -/
structure DlResp where
  ok : Bool
  pjson : Payload

/-- External collaborators of the download engine.  Each field is *modelled
from the spec*: the HTTP GET transport, the registry lookup performed by
`find_class_from_resp` (the registries are the external `lfview.resources`
package), and the deserializer of `build_resource_from_json`. -/
structure DownloadEnv where
  get : String → DlResp
  locGet : String → Bool
  findClass : String → Option String → Option ResourceClass
  buildFields : String → Payload → Props

/-- Value of a completed `_download_resource_json` future: the sentinel URL
string (tolerated failure) or the fetched payload. -/
inductive DlValue where
  | sentinel (u : String)
  | payload (p : Payload)

/-- URLs of child resources discovered in a fetched payload (session.py
lines 670-681): over the class properties in sorted name order, skip ignored
names and falsy values, register a string-valued pointer, and register every
string element of a list-of-pointers value. -/
def collectPointerUrls (props : List (String × PKind))
    (fields : List (String × JVal)) : List String :=
  (sortByKey Prod.fst props).flatMap (fun pr =>
    match fields.lookup pr.1 with
    | none => []
    | some v =>
      if pr.1 ∈ IGNORED_PROPS || jvalFalsy v then []
      else
        match pr.2, v with
        | .pointer, .s u => [u]
        | .pointerList, .list vs =>
          vs.filterMap (fun jv =>
            match jv with
            | .s u => some u
            | _ => none)
        | _, _ => [])

/-- Outcome of `_download_resource_json`: the GET trace, the verbose log
lines, and either a raised error or the resulting value together with the
discovered child URLs (which the caller registers with `setdefault`). -/
structure DlFetchResult where
  trace : List String
  logs : List String
  outcome : Except String (DlValue × List String)

/-- `Session._download_resource_json` (session.py lines 623-681): an
app-form URL is translated to the project-service URL and fetched; on
failure the view-service form is used instead (with a verbose notice).  Any
other URL — or the fallback form — is fetched directly.  A failed fetch
returns the (possibly rebound) URL as sentinel when `allow_failure` holds
and raises otherwise.  The resolved class decides recursive expansion: a
collaboration model (Slide/Feedback) is never expanded. -/
def downloadResourceJson (env : DownloadEnv) (url : String)
    (recursive verbose allow_failure : Bool) : DlFetchResult :=
  let step1 : Except String (List String × List String × String × Option DlResp) :=
    match match_url_app url with
    | none => .ok ([], [], url, none)
    | some _ =>
      match convert_url_app_to_project url with
      | .error e => .error e
      | .ok project_url =>
        let r := env.get project_url
        if r.ok then .ok ([project_url], [], project_url, some r)
        else
          match convert_url_project_to_view project_url with
          | .error e => .error e
          | .ok view_url =>
            .ok ([project_url],
              if verbose then
                ["You do not own View; attempting to download a copy"]
              else [],
              view_url, some r)
  match step1 with
  | .error e => { trace := [], logs := [], outcome := .error e }
  | .ok (trace1, logs1, url1, resp1) =>
    let fetched :=
      match resp1 with
      | some r => if r.ok then (trace1, r) else (trace1 ++ [url1], env.get url1)
      | none => (trace1 ++ [url1], env.get url1)
    let trace2 := fetched.1
    let resp := fetched.2
    if !resp.ok then
      { trace := trace2, logs := logs1,
        outcome :=
          if allow_failure then .ok (.sentinel url1, [])
          else .error ("Unable to download " ++ url1) }
    else
      match env.findClass url1 resp.pjson.rtype with
      | none =>
        { trace := trace2, logs := logs1,
          outcome := .error "Unable to find class" }
      | some cls =>
        let recursive1 := if cls.isCollab then false else recursive
        { trace := trace2, logs := logs1,
          outcome := .ok (.payload resp.pjson,
            if recursive1 then
              collectPointerUrls cls.props resp.pjson.fields
            else []) }

/-- Value state of one download lookup-table entry. -/
inductive LookupVal where
  | unresolved
  | fut (v : DlValue)
  | str (u : String)
  | payload (p : Payload)
  | res (rid : Nat)

/-- Replace the value bound to a key, preserving entry order. -/
def lookupSet (lk : List (String × LookupVal)) (k : String) (v : LookupVal) :
    List (String × LookupVal) :=
  lk.map (fun kv => if kv.1 = k then (kv.1, v) else kv)

/-- `lookup_dict.setdefault(k)`: append `k` unresolved unless present. -/
def lookupSetdefault (lk : List (String × LookupVal)) (k : String) :
    List (String × LookupVal) :=
  if (lk.map Prod.fst).contains k then lk else lk ++ [(k, .unresolved)]

/-- Observer effect of a property assignment on the attribute map (modelled
from the spec, as `notifyPropAssign`): a changing assignment on an object
with an installed observer marks it touched. -/
def touchAttrs (attrs : Nat → RAttrs) (rid : Nat) : Nat → RAttrs :=
  fun j => if j = rid then { attrs rid with touched := some true } else attrs j

/-- State threaded through the download engine: the insertion-ordered lookup
table, the store and attribute map of materialized resources, the next
object identity, and the GET/log traces. -/
structure DlState where
  lookup : List (String × LookupVal)
  store : Store
  attrs : Nat → RAttrs
  nextId : Nat
  trace : List String
  logs : List String

/-- One pass of the download loop body (session.py lines 547-598) over a
snapshot of the sorted lookup items, with the synchronous executor (a
submitted fetch runs inline; its exception propagates out of the pass):
unresolved entries are fetched (registering discovered URLs), completed
fetch futures are resolved to their value, sentinel strings are kept, and a
payload's binary location is driven from URL to stored response. -/
def dlScan (env : DownloadEnv) (recursive verbose allow_failure : Bool) :
    List (String × LookupVal) → DlState → Bool →
    Except String (DlState × Bool)
  | [], st, complete => .ok (st, complete)
  | (key, value) :: rest, st, complete =>
    match value with
    | .unresolved =>
      let r := downloadResourceJson env key recursive verbose allow_failure
      let st1 :=
        { st with trace := st.trace ++ r.trace, logs := st.logs ++ r.logs }
      match r.outcome with
      | .error e => .error e
      | .ok (v, discovered) =>
        dlScan env recursive verbose allow_failure rest
          { st1 with
            lookup :=
              discovered.foldl lookupSetdefault
                (lookupSet st1.lookup key (.fut v)) }
          false
    | .fut v =>
      dlScan env recursive verbose allow_failure rest
        { st with
          lookup := lookupSet st.lookup key
            (match v with
             | .sentinel u => .str u
             | .payload p => .payload p) }
        false
    | .str _ => dlScan env recursive verbose allow_failure rest st complete
    | .payload p =>
      match p.location with
      | .absent => dlScan env recursive verbose allow_failure rest st complete
      | .url u =>
        if u.data.isEmpty then
          dlScan env recursive verbose allow_failure rest st complete
        else
          dlScan env recursive verbose allow_failure rest
            { st with
              lookup := lookupSet st.lookup key
                (.payload { p with location := .futDone (env.locGet u) }),
              trace := st.trace ++ [u] }
            false
      | .futPending => dlScan env recursive verbose allow_failure rest st false
      | .futDone ok =>
        dlScan env recursive verbose allow_failure rest
          { st with
            lookup := lookupSet st.lookup key
              (.payload { p with location := .resp ok }) }
          complete
      | .resp _ => dlScan env recursive verbose allow_failure rest st complete
    | .res _ => dlScan env recursive verbose allow_failure rest st complete

/-- The `while True` download loop (session.py lines 546-600), fuel-bounded:
each iteration scans a sorted snapshot of the lookup items and stops once a
pass finds everything resolved. -/
def dlLoop (env : DownloadEnv) (recursive verbose allow_failure : Bool) :
    Nat → DlState → Except String DlState
  | 0, _ => .error "fuel exhausted"
  | n + 1, st =>
    match dlScan env recursive verbose allow_failure
        (sortByKey Prod.fst st.lookup) st true with
    | .error e => .error e
    | .ok (st', complete) =>
      if complete then .ok st'
      else dlLoop env recursive verbose allow_failure n st'

/-- Materialization pass (session.py lines 606-610 with
`build_resource_from_json`, utils.py lines 230-268): every payload becomes a
fresh object built by the external deserializer; unless `copy` is set, the
new object is associated with its source URL via
`process_uploaded_resource`. -/
def dlMaterialize (env : DownloadEnv) (copy : Bool) :
    List (String × LookupVal) → DlState → DlState
  | [], st => st
  | (key, value) :: rest, st =>
    match value with
    | .payload p =>
      let rid := st.nextId
      dlMaterialize env copy rest
        { st with
          lookup := lookupSet st.lookup key (.res rid),
          store := st.store ++ [(rid, env.buildFields key p)],
          nextId := rid + 1,
          attrs :=
            if copy then st.attrs
            else processUploadedAttrs st.attrs rid (.s key) }
    | _ => dlMaterialize env copy rest st

/-- Substitution of one pointer value by the lookup table
(`lookup_dict[value]` when the value is a key, else the value itself). -/
def substPtr (lk : List (String × Ptr)) : Ptr → Ptr
  | .url u =>
    match lk.lookup u with
    | some q => q
    | none => .url u
  | .res i => .res i

/-- `populate_resource_pointers` from `utils.py` (lines 271-290): rewrite
every pointer property whose value is a lookup key to the table entry, and
every URL element of a list-of-pointers property likewise; other values (and
properties that are `None`) are untouched.  The source iterates the
properties in sorted order, which only fixes the mutation order; the
resulting values are per-name and independent. -/
def populate_resource_pointers (props : Props) (lk : List (String × Ptr)) :
    Props :=
  props.map (fun f =>
    match f.2 with
    | .ptr p => (f.1, FVal.ptr (substPtr lk p))
    | .ptrList ps => (f.1, FVal.ptrList (ps.map (substPtr lk)))
    | _ => f)

/-- View of the fully resolved lookup table as pointer values: materialized
entries become resource pointers, sentinel strings stay URLs. -/
def lookupPtrs (lk : List (String × LookupVal)) : List (String × Ptr) :=
  lk.filterMap (fun kv =>
    match kv.2 with
    | .res rid => some (kv.1, Ptr.res rid)
    | .str u => some (kv.1, Ptr.url u)
    | _ => none)

/-- Pointer-rewrite pass (session.py lines 611-614): populate the pointers
of every materialized resource from the lookup table; a changing assignment
fires the installed change observer. -/
def dlPopulate : List (String × LookupVal) → DlState → DlState
  | [], st => st
  | (_, value) :: rest, st =>
    match value with
    | .res rid =>
      let oldProps := storeProps st.store rid
      let newProps := populate_resource_pointers oldProps (lookupPtrs st.lookup)
      dlPopulate rest
        { st with
          store := storeSet st.store rid newProps,
          attrs :=
            if (st.attrs rid).changeObserver && decide (newProps ≠ oldProps)
            then touchAttrs st.attrs rid
            else st.attrs }
    | _ => dlPopulate rest st

/-- `Session.download` (session.py lines 497-621): seed the lookup table
with the requested URL, run the polling loop to a fixed point, materialize
every payload, rewrite pointers, and return the entry of the requested URL
(a materialized resource, or the sentinel URL when its fetch failed and
failure is tolerated). -/
def downloadRun (env : DownloadEnv) (url : String)
    (recursive copy verbose allow_failure : Bool) (fuel : Nat) :
    Except String (Ptr × DlState) :=
  let st0 : DlState :=
    { lookup := [(url, .unresolved)], store := [], attrs := fun _ => {},
      nextId := 0, trace := [], logs := [] }
  match dlLoop env recursive verbose allow_failure fuel st0 with
  | .error e => .error e
  | .ok st1 =>
    let st2 := dlMaterialize env copy st1.lookup st1
    let st3 := dlPopulate st2.lookup st2
    match st3.lookup.lookup url with
    | some (.res rid) => .ok (Ptr.res rid, st3)
    | some (.str u) => .ok (Ptr.url u, st3)
    | _ => .error "unresolved entry"

/-- C7: for a URL that is fetched as-is (not app-form) whose metadata fetch
returns a non-success response, `_download_resource_json` raises when
`allow_failure` is false and returns the original URL string as sentinel
(discovering nothing) when it is true; and the pointer-rewrite pass keeps a
URL whose table entry is that sentinel in place of a materialized object. -/
theorem claim_C7_allow_failure (env : DownloadEnv) (url : String)
    (recursive verbose : Bool)
    (hnapp : match_url_app url = none)
    (hfail : (env.get url).ok = false) :
    (downloadResourceJson env url recursive verbose false).outcome
        = .error ("Unable to download " ++ url)
    ∧ (downloadResourceJson env url recursive verbose true).outcome
        = .ok (.sentinel url, [])
    ∧ (∀ lk : List (String × Ptr), lk.lookup url = some (Ptr.url url) →
        substPtr lk (Ptr.url url) = Ptr.url url)
    ∧ (∀ (name : String) (props : Props) (lk : List (String × Ptr)),
        lk.lookup url = some (Ptr.url url) →
        populate_resource_pointers ((name, FVal.ptr (Ptr.url url)) :: props) lk
          = (name, FVal.ptr (Ptr.url url)) :: populate_resource_pointers props lk) := by
  refine ⟨?_, ?_, ?_, ?_⟩
  · simp [downloadResourceJson, hnapp, hfail]
  · simp [downloadResourceJson, hnapp, hfail]
  · intro lk h
    simp [substPtr, h]
  · intro name props lk h
    simp [populate_resource_pointers, substPtr, h]

/-- Environment whose every metadata fetch fails, for the C7 witness. -/
def c7Env : DownloadEnv :=
  { get := fun _ =>
      { ok := false,
        pjson := { rtype := none, fields := [], location := .absent } },
    locGet := fun _ => false,
    findClass := fun _ _ => none,
    buildFields := fun _ _ => [] }

/-- Witness for C7 at a concrete view URL whose fetch fails. -/
theorem claim_C7_witness :
    (downloadResourceJson c7Env "https://ex.com/api/v1/view/o/p/v" true false
        false).outcome
      = .error "Unable to download https://ex.com/api/v1/view/o/p/v"
    ∧ (downloadResourceJson c7Env "https://ex.com/api/v1/view/o/p/v" true false
        true).outcome
      = .ok (.sentinel "https://ex.com/api/v1/view/o/p/v", [])
    ∧ substPtr
        [("https://ex.com/api/v1/view/o/p/v",
          Ptr.url "https://ex.com/api/v1/view/o/p/v")]
        (Ptr.url "https://ex.com/api/v1/view/o/p/v")
      = Ptr.url "https://ex.com/api/v1/view/o/p/v" := by
  have h := claim_C7_allow_failure c7Env "https://ex.com/api/v1/view/o/p/v"
    true false (by decide) rfl
  exact ⟨h.1, h.2.1, h.2.2.1 _ (by decide)⟩

theorem dlLoop_keys (env : DownloadEnv) (rc vb af : Bool) (url : String)
    (hdisc : ∀ x ds,
      (downloadResourceJson env url rc vb af).outcome = .ok (x, ds) →
      ds = []) :
    ∀ (fuel : Nat) (val : LookupVal) (st st' : DlState),
      st.lookup = [(url, val)] →
      dlLoop env rc vb af fuel st = .ok st' →
      st'.lookup.map Prod.fst = [url]
  | 0, val, st, st', hlk, hloop => by
    rw [dlLoop] at hloop
    exact absurd hloop (by simp)
  | fuel + 1, val, st, st', hlk, hloop => by
    rw [dlLoop, hlk] at hloop
    have hsnap : sortByKey Prod.fst [(url, val)] = [(url, val)] := rfl
    rw [hsnap] at hloop
    cases val with
    | unresolved =>
      rcases hout : (downloadResourceJson env url rc vb af).outcome with e | xds
      · simp [dlScan, hout] at hloop
      · rcases xds with ⟨x, ds⟩
        have hds : ds = [] := hdisc x ds hout
        subst hds
        simp only [dlScan, hout, List.foldl_nil] at hloop
        exact dlLoop_keys env rc vb af url hdisc fuel (.fut x) _ st'
          (by simp [hlk, lookupSet]) hloop
    | fut x =>
      simp only [dlScan] at hloop
      exact dlLoop_keys env rc vb af url hdisc fuel
        (match x with
         | .sentinel u => .str u
         | .payload p => .payload p) _ st'
        (by cases x <;> simp [hlk, lookupSet]) hloop
    | str u =>
      simp only [dlScan] at hloop
      simp at hloop
      rw [← hloop, hlk]
      simp
    | payload p =>
      cases hploc : p.location with
      | absent =>
        simp only [dlScan, hploc] at hloop
        simp at hloop
        rw [← hloop, hlk]
        simp
      | url u =>
        by_cases hu : u.data.isEmpty
        · simp only [dlScan, hploc, hu] at hloop
          simp at hloop
          rw [← hloop, hlk]
          simp
        · simp only [dlScan, hploc, hu] at hloop
          simp at hloop
          exact dlLoop_keys env rc vb af url hdisc fuel
            (.payload { p with location := .futDone (env.locGet u) }) _ st'
            (by simp [hlk, lookupSet]) hloop
      | futPending =>
        simp only [dlScan, hploc] at hloop
        simp at hloop
        exact dlLoop_keys env rc vb af url hdisc fuel (.payload p) st st'
          hlk hloop
      | futDone ok =>
        simp only [dlScan, hploc] at hloop
        simp at hloop
        rw [← hloop]
        simp [hlk, lookupSet]
      | resp ok =>
        simp only [dlScan, hploc] at hloop
        simp at hloop
        rw [← hloop, hlk]
        simp
    | res rid =>
      simp only [dlScan] at hloop
      simp at hloop
      rw [← hloop, hlk]
      simp

/-- C8: a download rooted at a resource whose resolved class is a
collaboration (Slide/Feedback) model is never recursively expanded,
regardless of the `recursive` flag: the fetch discovers no pointer URLs, and
the download loop's lookup table never grows beyond the root URL — so no
fetch is ever issued for a URL nested in the resource's pointer fields. -/
theorem claim_C8_collab_not_expanded (env : DownloadEnv) (url : String)
    (recursive verbose allow_failure : Bool) (cls : ResourceClass)
    (hnapp : match_url_app url = none)
    (hok : (env.get url).ok = true)
    (hcls : env.findClass url (env.get url).pjson.rtype = some cls)
    (hcollab : cls.isCollab = true) :
    (downloadResourceJson env url recursive verbose allow_failure).outcome
        = .ok (.payload (env.get url).pjson, [])
    ∧ (∀ (fuel : Nat) (st' : DlState),
        dlLoop env recursive verbose allow_failure fuel
          { lookup := [(url, .unresolved)], store := [], attrs := fun _ => {},
            nextId := 0, trace := [], logs := [] } = .ok st' →
        st'.lookup.map Prod.fst = [url]) := by
  have hout : (downloadResourceJson env url recursive verbose
      allow_failure).outcome = .ok (.payload (env.get url).pjson, []) := by
    simp [downloadResourceJson, hnapp, hok, hcls, hcollab]
  refine ⟨hout, ?_⟩
  intro fuel st' hloop
  refine dlLoop_keys env recursive verbose allow_failure url ?_ fuel
    .unresolved _ st' rfl hloop
  intro x ds h
  rw [hout] at h
  injection h with h1
  injection h1 with h2 h3
  exact h3.symm

/-- Root slide URL for the C8 witness. -/
def c8Url : String := "https://ex.com/api/v1/view/o1/p1/v1/slides/s1"

/-- Environment serving a slide payload with nested pointer URLs, whose
resolved class is a collaboration model. -/
def c8Env : DownloadEnv :=
  { get := fun _ =>
      { ok := true,
        pjson :=
          { rtype := some "slides",
            fields :=
              [("elements", .list [.s "https://ex.com/el1"]),
               ("view", .s "https://ex.com/v1")],
            location := .absent } },
    locGet := fun _ => true,
    findClass := fun _ _ =>
      some { isCollab := true,
             props := [("elements", .pointerList), ("view", .pointer)] },
    buildFields := fun _ _ => [] }

/-- Witness for C8: fetching the slide discovers nothing even with
`recursive=True`, and after the loop the lookup table still holds only the
root URL. -/
theorem claim_C8_witness :
    (downloadResourceJson c8Env c8Url true false false).outcome
        = .ok (.payload (c8Env.get c8Url).pjson, [])
    ∧ (match dlLoop c8Env true false false 4
          { lookup := [(c8Url, .unresolved)], store := [], attrs := fun _ => {},
            nextId := 0, trace := [], logs := [] } with
       | .ok st' => st'.lookup.map Prod.fst
       | .error _ => []) = [c8Url] := by
  have h := claim_C8_collab_not_expanded c8Env c8Url true false false
    { isCollab := true,
      props := [("elements", .pointerList), ("view", .pointer)] }
    (by decide) rfl rfl rfl
  refine ⟨h.1, ?_⟩
  have hok2 : (dlLoop c8Env true false false 4
      { lookup := [(c8Url, .unresolved)], store := [], attrs := fun _ => {},
        nextId := 0, trace := [], logs := [] }).isOk = true := rfl
  rcases hrun : dlLoop c8Env true false false 4
      { lookup := [(c8Url, .unresolved)], store := [], attrs := fun _ => {},
        nextId := 0, trace := [], logs := [] } with e | st'
  · rw [hrun] at hok2
    simp [Except.toBool, Except.isOk] at hok2
  · exact h.2 4 st' hrun

/-- C9 (amended): an app-form URL is translated to the project-service URL
before any fetch — the first GET of the fetch helper targets the translated
URL — and when that fetch does not succeed, the helper falls back to the
view-service URL form (the GET trace is exactly the project URL followed by
the view URL) and, when verbose, prints the not-owned notice; the `copy`
flag of the operation is not altered by the fallback. -/
theorem claim_C9_app_url_translation (env : DownloadEnv)
    (url pu vu : String) (recursive verbose allow_failure : Bool)
    (m : AppUrlParts)
    (happ : match_url_app url = some m)
    (hcvt : convert_url_app_to_project url = .ok pu)
    (hfailp : (env.get pu).ok = false)
    (hcvt2 : convert_url_project_to_view pu = .ok vu) :
    (downloadResourceJson env url recursive verbose allow_failure).trace.head?
        = some pu
    ∧ (downloadResourceJson env url recursive verbose allow_failure).trace
        = [pu, vu]
    ∧ (downloadResourceJson env url recursive verbose allow_failure).logs
        = (if verbose then
            ["You do not own View; attempting to download a copy"]
          else []) := by
  refine ⟨?_, ?_, ?_⟩ <;>
    (simp [downloadResourceJson, happ, hcvt, hfailp, hcvt2]
     split <;> first | rfl | (split <;> rfl))

/-- App URL of the C9 counterexample. -/
def c9Url : String := "https://ex.com/app/org1/proj1/view1"

/-- Its project-service translation. -/
def c9Proj : String := "https://ex.com/api/v1/project/org1/proj1/views/view1"

/-- Its view-service fallback form. -/
def c9View : String := "https://ex.com/api/v1/view/org1/proj1/view1"

/-- Environment in which the project-service fetch fails but the
view-service fetch succeeds with a payload without pointers. -/
def c9Env : DownloadEnv :=
  { get := fun u =>
      if u = c9View then
        { ok := true,
          pjson := { rtype := some "views", fields := [], location := .absent } }
      else
        { ok := false,
          pjson := { rtype := none, fields := [], location := .absent } },
    locGet := fun _ => true,
    findClass := fun _ _ => some { isCollab := false, props := [] },
    buildFields := fun _ _ => [] }

/-- Counterexample to C9 as stated: in this concrete download the app URL is
translated and the fallback to the view-service URL occurs (the GET trace is
exactly the project URL followed by the view URL), yet the download is not
marked as a non-owned copy — with `copy=False` the materialized root is
still associated with its source URL exactly as in a non-fallback download:
its identity is assigned and the ownership (change-observer) wiring is
installed, which a copy-mode download would skip. -/
theorem claim_C9_counterexample :
    (match downloadRun c9Env c9Url true false false false 5 with
     | .ok (_, st) => st.trace
     | .error _ => []) = [c9Proj, c9View]
    ∧ (match downloadRun c9Env c9Url true false false false 5 with
       | .ok (_, st) => (st.attrs 0).identity
       | .error _ => none) = some (.s c9Url)
    ∧ (match downloadRun c9Env c9Url true false false false 5 with
       | .ok (_, st) => (st.attrs 0).changeObserver
       | .error _ => false) = true := by
  decide

/-- Witness for the amended C9 at the concrete app URL: the GET trace is the
project URL then the view URL, and the verbose notice is printed. -/
theorem claim_C9_witness :
    (downloadResourceJson c9Env c9Url true true false).trace = [c9Proj, c9View]
    ∧ (downloadResourceJson c9Env c9Url true true false).logs
        = ["You do not own View; attempting to download a copy"] := by
  have h := claim_C9_app_url_translation c9Env c9Url c9Proj c9View true true
    false ⟨"https://ex.com", "org1", "proj1", "view1"⟩ (by decide) (by decide)
    (by decide) (by decide)
  refine ⟨h.2.1, ?_⟩
  rw [h.2.2]
  rfl
